import Mathlib

/-!
Verification of the ChampSim virtual-memory address-translation engine
(`src/vmem.cc`, `inc/vmem.h`, `test/600-ptw-path.cc`).

The `VirtualMemory` operations of `src/vmem.cc` are embedded as pure
state-passing functions.  The `champsim::` address utilities (address
slicing, `splice`, `lowest_address_for_size`, `lg2`, `ipow`) are part of
the repository but their sources are not available here; they are
modelled from the specification's data model (page number = address
with the page-offset bits removed; slices are contiguous bit fields at
stated positions).  Each such modelled definition is marked in its doc
comment.  Machine integers are modelled as `Nat`; the 64-bit width is
irrelevant for the properties proved here because all quantities stay
far below `2 ^ 64` in the scenarios exercised and no operation in
`vmem.cc` relies on wrap-around of a full-width integer.
-/

/-- `LOG2_PAGE_SIZE` from `champsim_constants.h` (standard ChampSim value). -/
def LOG2_PAGE_SIZE : Nat := 12

/-- `PAGE_SIZE` from `champsim_constants.h`: `2 ^ LOG2_PAGE_SIZE`. -/
def PAGE_SIZE : Nat := 4096

/-- `PTE_BYTES` / `pte_entry::byte_multiple`: the size of one page-table
entry in bytes (`#define PTE_BYTES 8` in `inc/vmem.h`). -/
def PTE_BYTES : Nat := 8

/-- Structurally recursive floor base-2 logarithm (the `fuel` argument only
drives the recursion; `fuel = n` suffices since `log2` needs at most `n`
halvings). -/
def lg2Rec : Nat → Nat → Nat
  | 0, _ => 0
  | fuel + 1, n => if n < 2 then 0 else lg2Rec fuel (n / 2) + 1

/-- Modelled from the spec: `champsim::lg2`, the base-2 logarithm used for
bit-position arithmetic ("log2(page size)", "log2(PTE-page size)").  On the
powers of two admitted by the constructor this is the exact logarithm. -/
def lg2 (n : Nat) : Nat := lg2Rec n n

/-- Modelled from the spec: `champsim::is_power_of_2` (`util/bits.h` is not
available).  Standard bit test: `n` is a nonzero power of two. -/
def is_power_of_2 (n : Nat) : Bool := n != 0 && (n &&& (n - 1)) == 0

/-- Configuration of `VirtualMemory` (constructor parameters that the
operations read: PTE-page size in bytes, number of page-table levels,
minor-fault penalty in cycles). -/
structure VMConfig where
  pte_page_size : Nat
  pt_levels : Nat
  minor_fault_penalty : Nat
deriving DecidableEq, Repr

/-- `VMEM_RESERVE_CAPACITY = std::max(pages{1}, mebibytes{1})`, in bytes:
the reserved low region of physical memory. -/
def vmemReserveCapacity : Nat := max PAGE_SIZE (2 ^ 20)

/-- Initial `next_ppage`: `champsim::lowest_address_for_size(VMEM_RESERVE_CAPACITY)`
as a page number (modelled from the spec: "next_ppage starting above a
reserved low region"). -/
def nextPpage0 : Nat := vmemReserveCapacity / PAGE_SIZE

/-- `last_ppage`: `lowest_address_for_size(pages{ipow(pte_page_size, pt_levels)})`
as a page number (modelled from the spec: "last_ppage from page size raised
to the number of levels"; `champsim::ipow` is modelled as `Nat.pow`). -/
def lastPpage (cfg : VMConfig) : Nat := cfg.pte_page_size ^ cfg.pt_levels * PAGE_SIZE / PAGE_SIZE

/-- The constructor's `assert` conditions (`src/vmem.cc` lines 36-38):
`page_table_page_size > kibibytes{1}`, `is_power_of_2(page_table_page_size)`,
`last_ppage > next_ppage`. -/
def ctorAssertsOk (cfg : VMConfig) : Prop :=
  1024 < cfg.pte_page_size ∧ is_power_of_2 cfg.pte_page_size = true ∧ nextPpage0 < lastPpage cfg

instance (cfg : VMConfig) : Decidable (ctorAssertsOk cfg) := by
  unfold ctorAssertsOk; infer_instance

/-- Mutable state of `VirtualMemory`: the two lazily populated maps
(`std::map` modelled as association lists — only lookup and insertion of
absent keys are used, so iteration order is irrelevant), the intra-page
PTE cursor `next_pte_page`, the active PTE page, and the pool cursor
`next_ppage`. -/
structure VMState where
  vpage_to_ppage_map : List ((Nat × Nat) × Nat)
  page_table : List ((Nat × Nat × Nat) × Nat)
  next_pte_page : Nat
  active_pte_page : Nat
  next_ppage : Nat
deriving DecidableEq, Repr

/-- Association-list lookup, the behaviour of `std::map::find` /
`try_emplace` on the keys used by `VirtualMemory`. -/
def assocFind {κ ν : Type} [DecidableEq κ] (k : κ) : List (κ × ν) → Option ν
  | [] => none
  | (k₁, v) :: rest => if k = k₁ then some v else assocFind k rest

/-- State after construction: empty maps, zero-initialized cursors, and
`next_ppage` just above the reserved region. -/
def vmInit : VMState :=
  { vpage_to_ppage_map := [], page_table := [], next_pte_page := 0, active_pte_page := 0,
    next_ppage := nextPpage0 }

/-- `VirtualMemory::shamt` (`src/vmem.cc` line 49):
`LOG2_PAGE_SIZE + lg2(pte_page_size) * (level - 1)`. -/
def shamt (cfg : VMConfig) (level : Nat) : Nat :=
  LOG2_PAGE_SIZE + lg2 cfg.pte_page_size * (level - 1)

/-- `VirtualMemory::get_offset` (`src/vmem.cc` lines 51-56): the bits of
`vaddr` in `[shamt level, shamt level + lg2 pte_page_size)`. -/
def get_offset (cfg : VMConfig) (vaddr : Nat) (level : Nat) : Nat :=
  (vaddr >>> shamt cfg level) % 2 ^ lg2 cfg.pte_page_size

/-- `VirtualMemory::available_ppages` (`src/vmem.cc` lines 66-70):
`offset(next_ppage, last_ppage)`, a signed difference in the source
(the cast to `size_t` is guarded by the `next_ppage <= last_ppage`
assertion), hence modelled in `Int`. -/
def available_ppages (cfg : VMConfig) (s : VMState) : Int :=
  (lastPpage cfg : Int) - (s.next_ppage : Int)

/-- Assertion guarding `VirtualMemory::ppage_front` (`src/vmem.cc` line 60):
`available_ppages() > 0`. -/
def ppageFrontAssertOk (cfg : VMConfig) (s : VMState) : Prop :=
  0 < available_ppages cfg s

/-- `VirtualMemory::va_to_pa` (`src/vmem.cc` lines 72-87).
`try_emplace({cpu, page_number(vaddr)}, ppage_front())` followed, on
insertion, by `ppage_pop()`; the returned address is
`splice(page_number(ppage), page_offset(vaddr))`, modelled from the spec
("the allocated page concatenated with the original page offset") as
`ppage * PAGE_SIZE + vaddr % PAGE_SIZE`.  Returns `((paddr, penalty),
next state)`. -/
def va_to_pa (cfg : VMConfig) (s : VMState) (cpu : Nat) (vaddr : Nat) : (Nat × Nat) × VMState :=
  match assocFind (cpu, vaddr / PAGE_SIZE) s.vpage_to_ppage_map with
  | some pp => ((pp * PAGE_SIZE + vaddr % PAGE_SIZE, 0), s)
  | none =>
      ((s.next_ppage * PAGE_SIZE + vaddr % PAGE_SIZE, cfg.minor_fault_penalty),
        { s with
          vpage_to_ppage_map := ((cpu, vaddr / PAGE_SIZE), s.next_ppage) :: s.vpage_to_ppage_map,
          next_ppage := s.next_ppage + 1 })

/-- Modelled from the spec: the final `champsim::splice` of
`VirtualMemory::get_pte_pa` (`src/vmem.cc` lines 104-106), which overlays
the level's index field `idx` (width `w = lg2 pte_page_size`) onto the
stored PTE location at bit position `lg2 PTE_BYTES = 3`: bits `[3, 3+w)`
of `stored` are replaced by `idx`, all other bits are kept. -/
def pteSplice (stored : Nat) (w : Nat) (idx : Nat) : Nat :=
  (stored >>> (3 + w)) * 2 ^ (3 + w) + idx * PTE_BYTES + stored % PTE_BYTES

/-- First step of `VirtualMemory::get_pte_pa` (`src/vmem.cc` lines 91-94):
when the intra-page cursor `next_pte_page` sits at the start of a page, pop
a fresh PTE page from the pool (`active_pte_page = ppage_front();
ppage_pop()`). -/
def pteActiveRefill (s : VMState) : VMState :=
  if s.next_pte_page = 0 then
    { s with active_pte_page := s.next_ppage, next_ppage := s.next_ppage + 1 }
  else s

/-- `VirtualMemory::get_pte_pa` (`src/vmem.cc` lines 89-111).
When the intra-page cursor `next_pte_page` is at the start of a page, a
fresh PTE page is popped from the pool (`active_pte_page = ppage_front();
ppage_pop()`).  Then `try_emplace({cpu, level, vaddr >> shamt(level)},
splice(active_pte_page, next_pte_page))` records the entry's slot, and on
insertion the cursor advances, wrapping at the PTE page's capacity in
entries, `pte_page_size / PTE_BYTES` (modelled from the spec: "Lazily
allocate the entry's slot, wrapping the intra-page offset counter; when
the counter wraps, allocate a fresh PTE page"; the stored slot address is
the active page's base plus the cursor scaled by the entry size,
"consumed in order until full", so the slots exactly fill the active page
before the cursor wraps).  The returned address overlays the level's
index field on the stored location. -/
def get_pte_pa (cfg : VMConfig) (s : VMState) (cpu : Nat) (vaddr : Nat) (level : Nat) :
    (Nat × Nat) × VMState :=
  let s₁ := pteActiveRefill s
  let key := (cpu, level, vaddr >>> shamt cfg level)
  let w := lg2 cfg.pte_page_size
  match assocFind key s₁.page_table with
  | some stored => ((pteSplice stored w (get_offset cfg vaddr level), 0), s₁)
  | none =>
      let stored := s₁.active_pte_page * PAGE_SIZE + s₁.next_pte_page * PTE_BYTES
      ((pteSplice stored w (get_offset cfg vaddr level), cfg.minor_fault_penalty),
        { s₁ with
          page_table := (key, stored) :: s₁.page_table,
          next_pte_page := (s₁.next_pte_page + 1) % (cfg.pte_page_size / PTE_BYTES) })

/-- Folding `va_to_pa` over a list of `(requester, vaddr)` requests. -/
def runTranslate (cfg : VMConfig) : VMState → List (Nat × Nat) → VMState
  | s, [] => s
  | s, (cpu, v) :: rest => runTranslate cfg (va_to_pa cfg s cpu v).2 rest

example : (va_to_pa ⟨4096, 5, 7⟩ vmInit 0 5000).1 = (256 * 4096 + 904, 7) := by decide

example :
    (get_pte_pa ⟨4096, 5, 7⟩ vmInit 0 1 1).1.1 % PAGE_SIZE = 0 := by decide

/-! ### Helper lemmas -/

theorem assocFind_cons {κ ν : Type} [DecidableEq κ] (k k₁ : κ) (v : ν) (l : List (κ × ν)) :
    assocFind k ((k₁, v) :: l) = if k = k₁ then some v else assocFind k l := rfl

theorem pteActiveRefill_page_table (s : VMState) :
    (pteActiveRefill s).page_table = s.page_table := by
  unfold pteActiveRefill; split <;> rfl

theorem pteActiveRefill_next_pte_page (s : VMState) :
    (pteActiveRefill s).next_pte_page = s.next_pte_page := by
  unfold pteActiveRefill; split <;> rfl

theorem pteActiveRefill_vmap (s : VMState) :
    (pteActiveRefill s).vpage_to_ppage_map = s.vpage_to_ppage_map := by
  unfold pteActiveRefill; split <;> rfl

theorem va_to_pa_hit (cfg : VMConfig) (s : VMState) (cpu v pp : Nat)
    (h : assocFind (cpu, v / PAGE_SIZE) s.vpage_to_ppage_map = some pp) :
    va_to_pa cfg s cpu v = ((pp * PAGE_SIZE + v % PAGE_SIZE, 0), s) := by
  unfold va_to_pa; rw [h]

theorem va_to_pa_miss (cfg : VMConfig) (s : VMState) (cpu v : Nat)
    (h : assocFind (cpu, v / PAGE_SIZE) s.vpage_to_ppage_map = none) :
    va_to_pa cfg s cpu v =
      ((s.next_ppage * PAGE_SIZE + v % PAGE_SIZE, cfg.minor_fault_penalty),
        { s with
          vpage_to_ppage_map := ((cpu, v / PAGE_SIZE), s.next_ppage) :: s.vpage_to_ppage_map,
          next_ppage := s.next_ppage + 1 }) := by
  unfold va_to_pa; rw [h]

theorem get_pte_pa_hit (cfg : VMConfig) (s : VMState) (cpu v level stored : Nat)
    (h : assocFind (cpu, level, v >>> shamt cfg level) s.page_table = some stored) :
    get_pte_pa cfg s cpu v level =
      ((pteSplice stored (lg2 cfg.pte_page_size) (get_offset cfg v level), 0),
        pteActiveRefill s) := by
  simp only [get_pte_pa, pteActiveRefill_page_table, h]

theorem get_pte_pa_miss (cfg : VMConfig) (s : VMState) (cpu v level : Nat)
    (h : assocFind (cpu, level, v >>> shamt cfg level) s.page_table = none) :
    get_pte_pa cfg s cpu v level =
      ((pteSplice ((pteActiveRefill s).active_pte_page * PAGE_SIZE + s.next_pte_page * PTE_BYTES)
          (lg2 cfg.pte_page_size) (get_offset cfg v level), cfg.minor_fault_penalty),
        { pteActiveRefill s with
          page_table :=
            ((cpu, level, v >>> shamt cfg level),
              (pteActiveRefill s).active_pte_page * PAGE_SIZE + s.next_pte_page * PTE_BYTES)
              :: s.page_table,
          next_pte_page := (s.next_pte_page + 1) % (cfg.pte_page_size / PTE_BYTES) }) := by
  simp only [get_pte_pa, pteActiveRefill_page_table, pteActiveRefill_next_pte_page, h]

/-- The 5-level, 4-KiB-PTE-page, unit-penalty configuration exercised by
`test/600-ptw-path.cc` (`VirtualMemory vmem{.., 1<<12, 5, 1, ..}`). -/
def testConfig : VMConfig := { pte_page_size := 4096, pt_levels := 5, minor_fault_penalty := 1 }

/-! ### C2 — page-offset preservation -/

/-- C2, counterexample: the page-offset bits are NOT reproduced by
`get_pte_pa`.  For `vaddr = 1` (page offset `1`) at level 1 from the fresh
state, the returned PTE physical address has page offset `0 ≠ 1`:
`get_pte_pa` derives its result only from `vaddr`'s bits above the page
offset (the map key uses `vaddr >> shamt(level)` and the entry index uses
bits `[shamt(level), shamt(level)+w)`, both at or above bit 12), so the
input's page-offset bits cannot appear in it. -/
theorem get_pte_pa_offset_not_preserved :
    (get_pte_pa testConfig vmInit 0 1 1).1.1 % PAGE_SIZE ≠ 1 % PAGE_SIZE := by decide

/-- C2 (amended): for every configuration, state, requester and `vaddr`,
the page-offset bits of the input virtual address are reproduced unchanged
in the physical address returned by `va_to_pa`; the same does not hold for
`get_pte_pa`. -/
theorem va_to_pa_preserves_page_offset (cfg : VMConfig) (s : VMState) (cpu v : Nat) :
    (va_to_pa cfg s cpu v).1.1 % PAGE_SIZE = v % PAGE_SIZE := by
  cases h : assocFind (cpu, v / PAGE_SIZE) s.vpage_to_ppage_map with
  | some pp =>
      rw [va_to_pa_hit cfg s cpu v pp h]
      simp only [PAGE_SIZE]
      omega
  | none =>
      rw [va_to_pa_miss cfg s cpu v h]
      simp only [PAGE_SIZE]
      omega

/-! ### C3 — `get_pte_pa` penalty accounting -/

/-- C3: `get_pte_pa` returns the minor-fault penalty exactly when the call
created a new page-table-entry slot, i.e. when no entry previously existed
for the key `(requester, level, vaddr >> shamt(level))`; otherwise the
returned penalty is `0`. -/
theorem get_pte_pa_minor_fault_iff_new_slot (cfg : VMConfig) (s : VMState) (cpu v level : Nat) :
    (get_pte_pa cfg s cpu v level).1.2
      = if assocFind (cpu, level, v >>> shamt cfg level) s.page_table = none
        then cfg.minor_fault_penalty else 0 := by
  cases h : assocFind (cpu, level, v >>> shamt cfg level) s.page_table with
  | some stored => rw [get_pte_pa_hit cfg s cpu v level stored h]; simp [h]
  | none => rw [get_pte_pa_miss cfg s cpu v level h]; simp [h]

/-! ### C7 — construction-time fatal errors -/

/-- C7: construction aborts (an `assert` fires) exactly for the fatal
configuration errors — PTE-page size not a power of two, PTE-page size at
most 1 KiB, or a physical-page pool that is empty or inverted
(`last_ppage ≤ next_ppage`); every other configuration passes all
constructor assertions. -/
theorem ctor_aborts_iff_fatal_config (cfg : VMConfig) :
    ctorAssertsOk cfg ↔
      ¬(is_power_of_2 cfg.pte_page_size = false ∨ cfg.pte_page_size ≤ 1024
        ∨ lastPpage cfg ≤ nextPpage0) := by
  unfold ctorAssertsOk
  constructor
  · rintro ⟨h1, h2, h3⟩
    push_neg
    exact ⟨by simp [h2], by omega, by omega⟩
  · intro h
    push_neg at h
    obtain ⟨h1, h2, h3⟩ := h
    exact ⟨by omega, by simpa using h1, by omega⟩

/-! ### C8 — construction of the physical-page pool -/

/-- C8: construction sets `last_ppage` to the PTE-page size raised to the
number of page-table levels, and `next_ppage` to the first page above the
reserved low region of `max(one page, one mebibyte)` bytes. -/
theorem ctor_pool_bounds (cfg : VMConfig) :
    lastPpage cfg = cfg.pte_page_size ^ cfg.pt_levels
    ∧ vmInit.next_ppage * PAGE_SIZE = max PAGE_SIZE (2 ^ 20) := by
  constructor
  · unfold lastPpage
    exact Nat.mul_div_cancel _ (by norm_num [PAGE_SIZE])
  · decide

/-! ### C1 — data-page allocation across sequences of translations -/

theorem va_to_pa_step_spec (cfg : VMConfig) (s : VMState) (cpu v pa pen : Nat) (s' : VMState)
    (h : va_to_pa cfg s cpu v = ((pa, pen), s')) :
    (pen = if assocFind (cpu, v / PAGE_SIZE) s.vpage_to_ppage_map = none
      then cfg.minor_fault_penalty else 0)
    ∧ va_to_pa cfg s' cpu v = ((pa, 0), s')
    ∧ (∀ k pp, assocFind k s.vpage_to_ppage_map = some pp →
        assocFind k s'.vpage_to_ppage_map = some pp) := by
  cases hf : assocFind (cpu, v / PAGE_SIZE) s.vpage_to_ppage_map with
  | some pp =>
      rw [va_to_pa_hit cfg s cpu v pp hf] at h
      obtain ⟨⟨hpa, hpen⟩, hs⟩ : (pp * PAGE_SIZE + v % PAGE_SIZE = pa ∧ 0 = pen) ∧ s = s' := by
        simpa using h
      subst hpa; subst hpen; subst hs
      refine ⟨by simp [hf], va_to_pa_hit cfg s cpu v pp hf, fun k pp₁ hk => hk⟩
  | none =>
      rw [va_to_pa_miss cfg s cpu v hf] at h
      obtain ⟨⟨hpa, hpen⟩, hs⟩ :
          (s.next_ppage * PAGE_SIZE + v % PAGE_SIZE = pa ∧ cfg.minor_fault_penalty = pen)
            ∧ ({ s with
                  vpage_to_ppage_map :=
                    ((cpu, v / PAGE_SIZE), s.next_ppage) :: s.vpage_to_ppage_map,
                  next_ppage := s.next_ppage + 1 } : VMState) = s' := by
        simpa using h
      subst hpa; subst hpen; subst hs
      have hfind :
          assocFind (cpu, v / PAGE_SIZE)
            (((cpu, v / PAGE_SIZE), s.next_ppage) :: s.vpage_to_ppage_map) =
            some s.next_ppage := by
        simp [assocFind_cons]
      refine ⟨by simp [hf], ?_, ?_⟩
      · exact va_to_pa_hit cfg _ cpu v s.next_ppage hfind
      · intro k pp₁ hk
        have hne : k ≠ (cpu, v / PAGE_SIZE) := by
          intro he; rw [he, hf] at hk; exact Option.noConfusion hk
        rw [assocFind_cons, if_neg hne]
        exact hk

theorem runTranslate_pool (cfg : VMConfig) (l : List (Nat × Nat)) :
    ∀ s : VMState, s.next_ppage = nextPpage0 + s.vpage_to_ppage_map.length →
      s.vpage_to_ppage_map.map Prod.snd
        = (List.range' nextPpage0 s.vpage_to_ppage_map.length).reverse →
      (runTranslate cfg s l).next_ppage
          = nextPpage0 + (runTranslate cfg s l).vpage_to_ppage_map.length
        ∧ (runTranslate cfg s l).vpage_to_ppage_map.map Prod.snd
          = (List.range' nextPpage0 (runTranslate cfg s l).vpage_to_ppage_map.length).reverse := by
  induction l with
  | nil => exact fun s h1 h2 => ⟨h1, h2⟩
  | cons p rest ih =>
      intro s h1 h2
      obtain ⟨cpu, v⟩ := p
      rw [runTranslate]
      cases hf : assocFind (cpu, v / PAGE_SIZE) s.vpage_to_ppage_map with
      | some pp =>
          rw [va_to_pa_hit cfg s cpu v pp hf]
          exact ih s h1 h2
      | none =>
          rw [va_to_pa_miss cfg s cpu v hf]
          apply ih
          · simpa using by omega
          · show s.next_ppage :: s.vpage_to_ppage_map.map Prod.snd
              = (List.range' nextPpage0 (s.vpage_to_ppage_map.length + 1)).reverse
            rw [List.range'_1_concat, List.reverse_append, h2]
            simp [h1]

/-- C1: over any sequence of `va_to_pa` calls from the fresh state, the
number of pool pages consumed equals the number of distinct
`(requester, virtual page)` keys mapped, the mapped physical pages are
exactly `nextPpage0, nextPpage0+1, …` in first-touch order (the k-th
distinct virtual page receives the k-th pool page; no physical page is
ever handed out twice), the minor-fault penalty is returned exactly when
the key was not yet mapped, and re-translating an already-mapped address
returns the identical physical address with zero penalty and leaves the
state unchanged. -/
theorem va_to_pa_distinct_alloc (cfg : VMConfig) (l : List (Nat × Nat)) :
    (runTranslate cfg vmInit l).next_ppage
        = nextPpage0 + (runTranslate cfg vmInit l).vpage_to_ppage_map.length
    ∧ (runTranslate cfg vmInit l).vpage_to_ppage_map.map Prod.snd
        = (List.range' nextPpage0 (runTranslate cfg vmInit l).vpage_to_ppage_map.length).reverse
    ∧ (∀ (s : VMState) (cpu v pa pen : Nat) (s' : VMState),
        va_to_pa cfg s cpu v = ((pa, pen), s') →
          (pen = if assocFind (cpu, v / PAGE_SIZE) s.vpage_to_ppage_map = none
            then cfg.minor_fault_penalty else 0)
          ∧ va_to_pa cfg s' cpu v = ((pa, 0), s')
          ∧ (∀ k pp, assocFind k s.vpage_to_ppage_map = some pp →
              assocFind k s'.vpage_to_ppage_map = some pp)) := by
  obtain ⟨h1, h2⟩ := runTranslate_pool cfg l vmInit (by simp [vmInit]) (by simp [vmInit])
  exact ⟨h1, h2, fun s cpu v pa pen s' h => va_to_pa_step_spec cfg s cpu v pa pen s' h⟩

/-- C1 witness: after translating two distinct pages, re-translating the
first returns the same physical address with zero penalty. -/
theorem va_to_pa_distinct_alloc_witness :
    va_to_pa testConfig (runTranslate testConfig vmInit [(0, 4096), (0, 8192)]) 0 4096
      = ((256 * 4096, 0), runTranslate testConfig vmInit [(0, 4096), (0, 8192)]) := by
  exact ((va_to_pa_distinct_alloc testConfig [(0, 4096), (0, 8192)]).2.2
    (runTranslate testConfig vmInit [(0, 4096), (0, 8192)]) 0 4096 (256 * 4096) 0
    (runTranslate testConfig vmInit [(0, 4096), (0, 8192)]) (by decide)).2.1

/-! ### C5 — pool capacity invariant -/

theorem pteActiveRefill_next_ppage (s : VMState) :
    (pteActiveRefill s).next_ppage
      = if s.next_pte_page = 0 then s.next_ppage + 1 else s.next_ppage := by
  unfold pteActiveRefill; split <;> rfl

theorem get_pte_pa_next_ppage (cfg : VMConfig) (s : VMState) (cpu v level : Nat) :
    ((get_pte_pa cfg s cpu v level).2).next_ppage = (pteActiveRefill s).next_ppage := by
  cases hf : assocFind (cpu, level, v >>> shamt cfg level) s.page_table with
  | some stored => rw [get_pte_pa_hit cfg s cpu v level stored hf]
  | none => rw [get_pte_pa_miss cfg s cpu v level hf]

/-- C5: `next_ppage ≤ last_ppage` holds after construction (for any
configuration passing the constructor asserts) and is preserved by
`va_to_pa` and `get_pte_pa` whenever the `ppage_front` assertion
precondition `available_ppages() > 0` holds, so
`available_ppages() = last_ppage − next_ppage` is never negative. -/
theorem pool_invariant_preserved (cfg : VMConfig) (hctor : ctorAssertsOk cfg) :
    (vmInit.next_ppage ≤ lastPpage cfg ∧ 0 ≤ available_ppages cfg vmInit)
    ∧ (∀ (s : VMState) (cpu v : Nat), s.next_ppage ≤ lastPpage cfg → ppageFrontAssertOk cfg s →
        (va_to_pa cfg s cpu v).2.next_ppage ≤ lastPpage cfg
        ∧ 0 ≤ available_ppages cfg (va_to_pa cfg s cpu v).2)
    ∧ (∀ (s : VMState) (cpu v level : Nat),
        s.next_ppage ≤ lastPpage cfg → ppageFrontAssertOk cfg s →
        (get_pte_pa cfg s cpu v level).2.next_ppage ≤ lastPpage cfg
        ∧ 0 ≤ available_ppages cfg (get_pte_pa cfg s cpu v level).2) := by
  obtain ⟨-, -, hlt⟩ := hctor
  refine ⟨⟨by simpa [vmInit] using Nat.le_of_lt hlt, ?_⟩, ?_, ?_⟩
  · unfold available_ppages vmInit
    simp only []
    omega
  · intro s cpu v hle hfront
    unfold ppageFrontAssertOk available_ppages at hfront
    cases hf : assocFind (cpu, v / PAGE_SIZE) s.vpage_to_ppage_map with
    | some pp =>
        rw [va_to_pa_hit cfg s cpu v pp hf]
        unfold available_ppages
        dsimp only
        omega
    | none =>
        rw [va_to_pa_miss cfg s cpu v hf]
        unfold available_ppages
        simp only []
        omega
  · intro s cpu v level hle hfront
    unfold ppageFrontAssertOk available_ppages at hfront
    have hnp := get_pte_pa_next_ppage cfg s cpu v level
    rw [pteActiveRefill_next_ppage] at hnp
    unfold available_ppages
    rw [hnp]
    split <;> omega

/-! ### C10 — `get_pte_pa` is stable on repeated identical calls -/

/-- C10: two consecutive `get_pte_pa` calls with identical arguments return
the same physical address, the second call returns zero penalty, and the
PTE-location map is unchanged by the second call (an entry, once created,
is never overwritten). -/
theorem get_pte_pa_idempotent (cfg : VMConfig) (s : VMState) (cpu v level pa pen : Nat)
    (s₂ : VMState) (h : get_pte_pa cfg s cpu v level = ((pa, pen), s₂)) :
    (get_pte_pa cfg s₂ cpu v level).1 = (pa, 0)
    ∧ ((get_pte_pa cfg s₂ cpu v level).2).page_table = s₂.page_table := by
  cases hf : assocFind (cpu, level, v >>> shamt cfg level) s.page_table with
  | some stored =>
      rw [get_pte_pa_hit cfg s cpu v level stored hf] at h
      obtain ⟨⟨hpa, -⟩, hs⟩ :
          (pteSplice stored (lg2 cfg.pte_page_size) (get_offset cfg v level) = pa ∧ 0 = pen)
            ∧ pteActiveRefill s = s₂ := by simpa using h
      have hf₂ : assocFind (cpu, level, v >>> shamt cfg level) s₂.page_table = some stored := by
        rw [← hs, pteActiveRefill_page_table]; exact hf
      rw [get_pte_pa_hit cfg s₂ cpu v level stored hf₂]
      exact ⟨by rw [hpa], pteActiveRefill_page_table s₂⟩
  | none =>
      rw [get_pte_pa_miss cfg s cpu v level hf] at h
      obtain ⟨⟨hpa, -⟩, hs⟩ :
          (pteSplice ((pteActiveRefill s).active_pte_page * PAGE_SIZE
              + s.next_pte_page * PTE_BYTES) (lg2 cfg.pte_page_size) (get_offset cfg v level) = pa
            ∧ cfg.minor_fault_penalty = pen)
          ∧ ({ pteActiveRefill s with
                page_table :=
                  ((cpu, level, v >>> shamt cfg level),
                    (pteActiveRefill s).active_pte_page * PAGE_SIZE
                      + s.next_pte_page * PTE_BYTES) :: s.page_table,
                next_pte_page := (s.next_pte_page + 1) % (cfg.pte_page_size / PTE_BYTES) } : VMState) = s₂ := by
        simpa using h
      have hf₂ : assocFind (cpu, level, v >>> shamt cfg level) s₂.page_table
          = some ((pteActiveRefill s).active_pte_page * PAGE_SIZE
              + s.next_pte_page * PTE_BYTES) := by
        rw [← hs]; simp [assocFind_cons]
      rw [get_pte_pa_hit cfg s₂ cpu v level _ hf₂]
      exact ⟨by rw [hpa], pteActiveRefill_page_table s₂⟩

/-- C10 witness: a concrete repeated PTE lookup. -/
theorem get_pte_pa_idempotent_witness :
    (get_pte_pa testConfig (get_pte_pa testConfig vmInit 0 1 1).2 0 1 1).1
        = ((get_pte_pa testConfig vmInit 0 1 1).1.1, 0)
    ∧ ((get_pte_pa testConfig (get_pte_pa testConfig vmInit 0 1 1).2 0 1 1).2).page_table
        = ((get_pte_pa testConfig vmInit 0 1 1).2).page_table := by
  exact get_pte_pa_idempotent testConfig vmInit 0 1 1
    (get_pte_pa testConfig vmInit 0 1 1).1.1 (get_pte_pa testConfig vmInit 0 1 1).1.2
    (get_pte_pa testConfig vmInit 0 1 1).2 (by rfl)

/-- C5 witness: the invariant is preserved by a concrete translation from
the freshly constructed state under the test configuration. -/
theorem pool_invariant_preserved_witness :
    (va_to_pa testConfig vmInit 0 0).2.next_ppage ≤ lastPpage testConfig
    ∧ 0 ≤ available_ppages testConfig (va_to_pa testConfig vmInit 0 0).2 := by
  exact (pool_invariant_preserved testConfig (by decide)).2.1 vmInit 0 0 (by decide)
    (by unfold ppageFrontAssertOk available_ppages; decide)

/-! ### C4 — PTE slots are handed out in order, wrapping at page capacity -/

theorem pteActiveRefill_active (s : VMState) :
    (pteActiveRefill s).active_pte_page
      = if s.next_pte_page = 0 then s.next_ppage else s.active_pte_page := by
  unfold pteActiveRefill; split <;> rfl

/-- C4: across any sequence of `get_pte_pa` calls, entry slots within the
active PTE page are handed out at strictly increasing entry offsets (a new
slot is created at the current cursor position and the cursor advances by
one), the cursor wraps at the PTE page's capacity in entries
(`pte_page_size / PTE_BYTES`), and a fresh physical PTE page is popped
from the pool exactly when the cursor is at `0`, i.e. only once the
previous PTE page has been filled. -/
theorem pte_slot_order_and_wrap (cfg : VMConfig) (s : VMState) (cpu v level : Nat)
    (hcap : s.next_pte_page < cfg.pte_page_size / PTE_BYTES) :
    ((get_pte_pa cfg s cpu v level).2.next_ppage
        = if s.next_pte_page = 0 then s.next_ppage + 1 else s.next_ppage)
    ∧ ((get_pte_pa cfg s cpu v level).2.active_pte_page
        = if s.next_pte_page = 0 then s.next_ppage else s.active_pte_page)
    ∧ (assocFind (cpu, level, v >>> shamt cfg level) s.page_table = none →
        assocFind (cpu, level, v >>> shamt cfg level)
            ((get_pte_pa cfg s cpu v level).2).page_table
          = some ((get_pte_pa cfg s cpu v level).2.active_pte_page * PAGE_SIZE
              + s.next_pte_page * PTE_BYTES)
        ∧ (get_pte_pa cfg s cpu v level).2.next_pte_page
          = (s.next_pte_page + 1) % (cfg.pte_page_size / PTE_BYTES))
    ∧ (assocFind (cpu, level, v >>> shamt cfg level) s.page_table ≠ none →
        (get_pte_pa cfg s cpu v level).2.next_pte_page = s.next_pte_page
        ∧ ((get_pte_pa cfg s cpu v level).2).page_table = s.page_table)
    ∧ (get_pte_pa cfg s cpu v level).2.next_pte_page < cfg.pte_page_size / PTE_BYTES := by
  have hpos : 0 < cfg.pte_page_size / PTE_BYTES := Nat.lt_of_le_of_lt (Nat.zero_le _) hcap
  cases hf : assocFind (cpu, level, v >>> shamt cfg level) s.page_table with
  | some stored =>
      rw [get_pte_pa_hit cfg s cpu v level stored hf]
      refine ⟨pteActiveRefill_next_ppage s, pteActiveRefill_active s, ?_, ?_, ?_⟩
      · intro hnone; exact Option.noConfusion hnone
      · intro _
        exact ⟨pteActiveRefill_next_pte_page s, pteActiveRefill_page_table s⟩
      · rw [pteActiveRefill_next_pte_page]; exact hcap
  | none =>
      rw [get_pte_pa_miss cfg s cpu v level hf]
      refine ⟨pteActiveRefill_next_ppage s, pteActiveRefill_active s, ?_, ?_, ?_⟩
      · intro _
        exact ⟨by simp [assocFind_cons], rfl⟩
      · intro hne; exact absurd rfl hne
      · exact Nat.mod_lt _ hpos

/-- C4 witness: a fresh PTE page is popped and slot `0` is used on the very
first PTE lookup. -/
theorem pte_slot_order_and_wrap_witness :
    (get_pte_pa testConfig vmInit 0 1 1).2.next_ppage
        = if vmInit.next_pte_page = 0 then vmInit.next_ppage + 1 else vmInit.next_ppage := by
  exact (pte_slot_order_and_wrap testConfig vmInit 0 1 1 (by decide)).1

/-! ### C6 — the per-level index fields tile the address -/

/-- Reassembly of a virtual address from its page offset and per-level
index fields: the page-offset bits plus, for each level `1 ≤ ℓ ≤ L`, the
index field `get_offset(vaddr, ℓ)` shifted back to its bit position
`shamt(ℓ)`. -/
def pathReassemble (cfg : VMConfig) (vaddr : Nat) : Nat → Nat
  | 0 => vaddr % PAGE_SIZE
  | L + 1 => pathReassemble cfg vaddr L + get_offset cfg vaddr (L + 1) * 2 ^ shamt cfg (L + 1)

theorem mod_add_shift_mod (x m w : Nat) :
    x % 2 ^ m + (x >>> m) % 2 ^ w * 2 ^ m = x % 2 ^ (m + w) := by
  rw [pow_add, Nat.mod_mul, Nat.shiftRight_eq_div_pow]
  ring

theorem pathReassemble_mod (cfg : VMConfig) (vaddr : Nat) :
    ∀ L : Nat,
      pathReassemble cfg vaddr L
        = vaddr % 2 ^ (LOG2_PAGE_SIZE + lg2 cfg.pte_page_size * L) := by
  intro L
  induction L with
  | zero =>
      show vaddr % PAGE_SIZE = vaddr % 2 ^ (LOG2_PAGE_SIZE + lg2 cfg.pte_page_size * 0)
      norm_num [PAGE_SIZE, LOG2_PAGE_SIZE]
  | succ L ih =>
      show pathReassemble cfg vaddr L + get_offset cfg vaddr (L + 1) * 2 ^ shamt cfg (L + 1)
        = vaddr % 2 ^ (LOG2_PAGE_SIZE + lg2 cfg.pte_page_size * (L + 1))
      rw [ih]
      unfold get_offset shamt
      simp only [Nat.add_sub_cancel]
      have hexp : LOG2_PAGE_SIZE + lg2 cfg.pte_page_size * (L + 1)
          = (LOG2_PAGE_SIZE + lg2 cfg.pte_page_size * L) + lg2 cfg.pte_page_size := by
        ring
      rw [hexp]
      exact mod_add_shift_mod vaddr _ _

/-- C6: for every configuration, reassembling the per-level index fields
(`get_offset(vaddr, ℓ)` placed at bit position `shamt(ℓ)` for
`ℓ = 1, …, L`) together with the page-offset bits reconstructs the
original virtual address below bit `shamt(L+1)`: the index fields tile
the address bits above the page offset without gap or overlap. -/
theorem index_fields_tile_address (cfg : VMConfig) (vaddr L : Nat) :
    pathReassemble cfg vaddr L = vaddr % 2 ^ shamt cfg (L + 1) := by
  rw [pathReassemble_mod cfg vaddr L]
  unfold shamt
  simp only [Nat.add_sub_cancel]

/-! ### C9 — page-table-walk issue counts

The `PageTableWalker` implementation (`src/ptw.cc`, `inc/ptw.h`) is not
among the available sources; only its test (`test/600-ptw-path.cc`) is.
The walker is therefore modelled from the spec (sections 4.2 and 4.3):
one PSCL per intermediate level `j = 1 … pt_levels−1`, keyed by the
virtual-address bits at or above `shamt(j)`; a walk scans the PSCLs from
the root downward, the deepest hit `j` lets the walker start at level `j`
(skipping all higher levels), one downstream memory read is issued per
remaining level (each contributing one cycle plus any minor-fault penalty
from `get_pte_pa`), completions fill the PSCLs for the levels just
resolved, and the walk finishes with the leaf translation `va_to_pa`.
Timing, queueing and MSHR admission are abstracted away: only issue
counts and the accumulated latency are modelled. -/

/-- PSCL contents: a set of `(level, key)` pairs, where `key` is the
vaddr's bits at or above `shamt(level)` (sets/ways/LRU geometry is
abstracted; the scenarios below touch one entry per level). -/
structure PTWState where
  pscl : List (Nat × Nat)
deriving DecidableEq, Repr

def memB (x : Nat × Nat) : List (Nat × Nat) → Bool
  | [] => false
  | y :: rest => if x = y then true else memB x rest

/-- Modelled from the spec: scan levels from the root downward; the first
(deepest) PSCL hit determines the level the walk can start from; with no
hit the walk starts at the root level `pt_levels`. -/
def startLevel (cfg : VMConfig) (ptw : PTWState) (vaddr : Nat) : Nat :=
  match (List.range' 1 (cfg.pt_levels - 1)).filter
      (fun j => memB (j, vaddr >>> shamt cfg j) ptw.pscl) with
  | [] => cfg.pt_levels
  | j :: _ => j

/-- Modelled from the spec: issue one downstream memory read per remaining
level, from `level` down to 1, through `get_pte_pa`; each read costs one
cycle of downstream latency plus the returned minor-fault penalty.
Returns the accumulated latency and the updated `VirtualMemory` state. -/
def issueLevels (cfg : VMConfig) (cpu vaddr : Nat) : VMState → Nat → Nat × VMState
  | vm, 0 => (0, vm)
  | vm, level + 1 =>
      let r := get_pte_pa cfg vm cpu vaddr (level + 1)
      let rest := issueLevels cfg cpu vaddr r.2 level
      (1 + r.1.2 + rest.1, rest.2)

structure WalkResult where
  issued : Nat
  latency : Nat
deriving DecidableEq, Repr

/-- Modelled from the spec: one full page-table walk — determine the start
level from the PSCLs, issue the remaining levels' reads, fill the PSCLs
for the levels just resolved, and finish with the leaf translation. -/
def walk (cfg : VMConfig) (ptw : PTWState) (vm : VMState) (cpu vaddr : Nat) :
    WalkResult × PTWState × VMState :=
  let start := startLevel cfg ptw vaddr
  let stepRes := issueLevels cfg cpu vaddr vm start
  let tr := va_to_pa cfg stepRes.2 cpu vaddr
  let fills := (List.range' 1 (start - 1)).map (fun j => (j, vaddr >>> shamt cfg j))
  (⟨start, stepRes.1 + tr.1.2⟩, ⟨fills ++ ptw.pscl⟩, tr.2)

/-- C9: under the 5-level test configuration, walking the previously
unseen address `0xdeadbeef` issues exactly 5 downstream memory reads (one
per level) and returns a translation with nonzero latency; re-walking the
identical address afterwards issues exactly 1 downstream read, because
every intermediate level's PSCL hits. -/
theorem ptw_walk_issue_counts :
    (walk testConfig ⟨[]⟩ vmInit 0 0xdeadbeef).1.issued = 5
    ∧ 0 < (walk testConfig ⟨[]⟩ vmInit 0 0xdeadbeef).1.latency
    ∧ (walk testConfig
        (walk testConfig ⟨[]⟩ vmInit 0 0xdeadbeef).2.1
        (walk testConfig ⟨[]⟩ vmInit 0 0xdeadbeef).2.2 0 0xdeadbeef).1.issued = 1 := by
  decide
